import Mathlib

/-!
Verification of the lock-free stack of `chapter07_lock_free_data_structures`
(`lock_free_stack.h`, `hazard_pointer.h`, `lock_free_stack_ref_count.h`).

Nodes are identified by allocation order (`NodeId`), payloads live in an
explicit map, and each C++ member function is embedded as a Lean function on
an explicit state.  Values of shared atomics that a function loads at its
internal atomic steps are passed as parameters, so that every control path of
the source is reachable in the model.
-/

namespace LockFreeStack

/-- Identity of a heap-allocated `node`, in allocation order. -/
abbrev NodeId := Nat

/-- Outcome of one completed `try_reclaim` call: the nodes it `delete`d (in
deletion order), the resulting `to_be_deleted` list, and the resulting
`threads_in_pop` counter. -/
structure ReclaimResult where
  freed : List NodeId
  to_be_deleted : List NodeId
  threads_in_pop : Nat
  deriving Repr, DecidableEq

/-- `lock_free_stack::try_reclaim(node* old_head)` (lock_free_stack.h:44-67).

* `old_head` — the argument (`none` models a null pointer);
* `ctr_at_check` — the value `threads_in_pop` loads at `if (threads_in_pop == 1)`;
* `ctr_at_dec` — the value of `threads_in_pop` just before `--threads_in_pop`
  executes (other threads entering `pop` may have incremented it in between);
* `to_be_deleted` — the deferred list at the `exchange`.

Returns `none` when the source dereferences a null pointer: in the contended
branch `chain_pending_node(old_head)` runs `chain_pending_nodes(n, n)`, whose
first statement `last->next = to_be_deleted` writes through `old_head`.
`delete` of a null pointer (exclusive branch) is a no-op and is fine. -/
def try_reclaim (old_head : Option NodeId) (ctr_at_check : Nat) (ctr_at_dec : Nat)
    (to_be_deleted : List NodeId) : Option ReclaimResult :=
  if ctr_at_check = 1 then
    -- node *nodes_to_delete = to_be_deleted.exchange(nullptr);
    let nodes_to_delete := to_be_deleted
    -- if (!--threads_in_pop) { delete_nodes(nodes_to_delete); }
    let new_ctr := ctr_at_dec - 1
    if new_ctr = 0 then
      -- delete_nodes(nodes_to_delete); ... delete old_head;
      some ⟨nodes_to_delete ++ old_head.toList, [], new_ctr⟩
    else
      -- else if (nodes_to_delete) chain_pending_nodes(nodes_to_delete); delete old_head;
      some ⟨old_head.toList, nodes_to_delete, new_ctr⟩
  else
    match old_head with
    | some h =>
      -- chain_pending_node(old_head); --threads_in_pop;
      some ⟨[], h :: to_be_deleted, ctr_at_dec - 1⟩
    | none =>
      -- chain_pending_node(nullptr) writes nullptr->next: undefined behaviour
      none

/-- `outstanding_hazard_pointers_for(void* p)` (hazard_pointer.h:68-75): scan
every slot's `pointer` field for `p`. -/
def outstanding_hazard_pointers_for (p : NodeId) (slots : List (Option NodeId)) : Bool :=
  slots.any (fun q => q = some p)

/-- `add_to_reclaim_list` (hazard_pointer.h:101-104): CAS-push onto the front
of `nodes_to_reclaim`. -/
def add_to_reclaim_list (n : NodeId) (l : List NodeId) : List NodeId :=
  n :: l

/-- The `while (current)` loop of `delete_nodes_with_no_hazards`
(hazard_pointer.h:115-123): walk the claimed chain, `delete` nodes with no
outstanding hazard pointer, push the rest back with `add_to_reclaim_list`.
Accumulates (deleted nodes in order, rebuilt reclaim list). -/
def reclaim_loop (slots : List (Option NodeId)) :
    List NodeId → List NodeId → List NodeId → List NodeId × List NodeId
  | [], freed_acc, recl => (freed_acc, recl)
  | c :: rest, freed_acc, recl =>
    if outstanding_hazard_pointers_for c slots then
      reclaim_loop slots rest freed_acc (add_to_reclaim_list c recl)
    else
      reclaim_loop slots rest (freed_acc ++ [c]) recl

/-- `delete_nodes_with_no_hazards()` (hazard_pointer.h:111-124): atomically
claim the whole list (`nodes_to_reclaim.exchange(nullptr)`), then run the
reclaim loop over it.  Returns (deleted nodes, new `nodes_to_reclaim`). -/
def delete_nodes_with_no_hazards (slots : List (Option NodeId))
    (nodes_to_reclaim : List NodeId) : List NodeId × List NodeId :=
  reclaim_loop slots nodes_to_reclaim [] []

/-- State of one `lock_free_stack<V>` object together with the global hazard
table of `hazard_pointer.h`.

* `stack` — the chain reachable from `head`, top of stack first;
* `payload` — each node's `std::shared_ptr<T> data` slot (`none` = empty);
* `threads_in_pop`, `to_be_deleted` — the counter-scheme members;
* `hazard_pointers` — the `pointer` fields of the global hazard table;
* `nodes_to_reclaim` — the hazard-scheme deferred list;
* `freed` — every node `delete`d so far, in deletion order;
* `fresh` — next unused allocation identity. -/
structure StackState (V : Type) where
  stack : List NodeId
  payload : NodeId → Option V
  threads_in_pop : Nat
  to_be_deleted : List NodeId
  hazard_pointers : List (Option NodeId)
  nodes_to_reclaim : List NodeId
  freed : List NodeId
  fresh : NodeId

/-- A freshly constructed stack plus an all-null hazard table of `num_slots`
entries; nothing allocated, nothing freed. -/
def StackState.init (V : Type) (num_slots : Nat) : StackState V where
  stack := []
  payload := fun _ => none
  threads_in_pop := 0
  to_be_deleted := []
  hazard_pointers := List.replicate num_slots none
  nodes_to_reclaim := []
  freed := []
  fresh := 0

variable {V : Type}

/-- `lock_free_stack::push` (lock_free_stack.h:88-101): allocate a node
holding the value, link it in front of the current head. -/
def push (v : V) (s : StackState V) : StackState V :=
  { s with
    stack := s.fresh :: s.stack
    payload := fun n => if n = s.fresh then some v else s.payload n
    fresh := s.fresh + 1 }

/-- `lock_free_stack::pop` (lock_free_stack.h:103-123) run as one completed
call: `++threads_in_pop`; unlink the head node (the CAS loop); swap the
payload out of the unlinked node; `try_reclaim(old_head)`.

`mid` is the number of increments other threads entering `pop` perform
between the `threads_in_pop == 1` check and the `--threads_in_pop` inside
`try_reclaim` (0 when no other thread interferes).  The undefined-behaviour
path of `try_reclaim` (null `old_head`, contended counter) is modelled as a
stuck no-op. -/
def pop (mid : Nat) (s : StackState V) : Option V × StackState V :=
  let ctr := s.threads_in_pop + 1
  let old_head := s.stack.head?
  let res := match old_head with
             | some h => s.payload h
             | none => none
  let payload' := fun n => if some n = old_head then none else s.payload n
  match try_reclaim old_head ctr (ctr + mid) s.to_be_deleted with
  | some r =>
    (res, { s with
            stack := s.stack.tail
            payload := payload'
            threads_in_pop := r.threads_in_pop
            to_be_deleted := r.to_be_deleted
            freed := s.freed ++ r.freed })
  | none => (none, s)

/-- `lock_free_stack::pop_using_hazard_pointers` (lock_free_stack.h:131-163)
run as one completed call by the thread owning hazard slot `slot_idx`:
protect-and-unlink the head node, `hp.store(nullptr)`, swap the payload out,
retire the node (`delete` it if no slot references it, else
`reclaim_later`), then run `delete_nodes_with_no_hazards`. -/
def pop_using_hazard_pointers (slot_idx : Nat) (s : StackState V) :
    Option V × StackState V :=
  -- hp.store(nullptr) clears this thread's slot before the hazard scans
  let slots := s.hazard_pointers.set slot_idx none
  match s.stack with
  | [] => (none, { s with hazard_pointers := slots })
  | h :: t =>
    let res := s.payload h
    let payload' := fun n => if n = h then none else s.payload n
    let (retired, recl1) :=
      if outstanding_hazard_pointers_for h slots then
        ([], add_to_reclaim_list h s.nodes_to_reclaim)
      else
        ([h], s.nodes_to_reclaim)
    let (swept, recl2) := delete_nodes_with_no_hazards slots recl1
    (res, { s with
            stack := t
            payload := payload'
            hazard_pointers := slots
            nodes_to_reclaim := recl2
            freed := s.freed ++ retired ++ swept })

/-- Another thread storing `p` into slot `i` of the hazard table (the
`hp.store` steps of its own protect loop). -/
def publish_hazard (i : Nat) (p : Option NodeId) (s : StackState V) : StackState V :=
  { s with hazard_pointers := s.hazard_pointers.set i p }

/-- A standalone run of `delete_nodes_with_no_hazards` over the current
state. -/
def run_sweep (s : StackState V) : StackState V :=
  let (swept, recl) :=
    delete_nodes_with_no_hazards s.hazard_pointers s.nodes_to_reclaim
  { s with nodes_to_reclaim := recl, freed := s.freed ++ swept }

/-- Another thread executing the first statement of `pop`
(`++threads_in_pop`) and then being suspended there. -/
def phantom_enter (s : StackState V) : StackState V :=
  { s with threads_in_pop := s.threads_in_pop + 1 }

/-- One atomic-granularity operation of the lock-free stack: the complete
calls of the public interface plus the visible sub-steps of other threads
(hazard publication, sweeps, a popper having executed only its entry
increment). -/
inductive Op (V : Type) where
  | push (v : V)
  | pop (mid : Nat)
  | pop_hz (slot_idx : Nat)
  | publish (i : Nat) (p : Option NodeId)
  | sweep
  | phantom_enter

/-- Apply one operation to the state. -/
def step : Op V → StackState V → StackState V
  | .push v, s => push v s
  | .pop mid, s => (pop mid s).2
  | .pop_hz i, s => (pop_using_hazard_pointers i s).2
  | .publish i p, s => publish_hazard i p s
  | .sweep, s => run_sweep s
  | .phantom_enter, s => phantom_enter s

/-- Run a sequence of operations from a state. -/
def run (ops : List (Op V)) (s : StackState V) : StackState V :=
  ops.foldl (fun s op => step op s) s

/-- Every node identity the state accounts for: the stack chain, the two
deferred-reclamation lists, and the deletion log, as one multiset. -/
def all_nodes (s : StackState V) : Multiset NodeId :=
  (s.stack : Multiset NodeId) + (s.to_be_deleted : Multiset NodeId) +
    (s.nodes_to_reclaim : Multiset NodeId) + (s.freed : Multiset NodeId)

/-- Structural invariant: no node identity appears twice across the shared
lists and the deletion log, every identity was allocated, and every node
parked on a deferred-reclamation list has an empty payload slot. -/
def Inv (s : StackState V) : Prop :=
  (all_nodes s).Nodup ∧
  (∀ n ∈ all_nodes s, n < s.fresh) ∧
  (∀ n : NodeId, n ∈ s.to_be_deleted ∨ n ∈ s.nodes_to_reclaim → s.payload n = none)

/-! ### Hazard slot acquisition (`hazard_pointer.h:17-66`) -/

/-- Identity of an OS thread (`std::thread::id`); `none` in an owner field is
the default-constructed id, meaning the slot is unowned. -/
abbrev ThreadId := Nat

/-- The `hp_owner` constructor (hazard_pointer.h:25-38): scan the fixed table
for an entry whose `id` field CAS-es from the default id to `tid`; claim the
first such entry.  `none` models reaching the end of the table, where the
source throws `std::runtime_error("No hazard pointers available")`.  On
success it returns the claimed index and the updated owner column. -/
def hp_owner_ctor (tid : ThreadId) :
    List (Option ThreadId) → Option (Nat × List (Option ThreadId))
  | [] => none
  | none :: rest => some (0, some tid :: rest)
  | some o :: rest =>
    (hp_owner_ctor tid rest).map (fun r => (r.1 + 1, some o :: r.2))

/-- `get_hazard_pointer_for_current_thread` (hazard_pointer.h:62-66): the
`thread_local static hp_owner` runs the constructor only on the thread's
first call (`owned = none`); afterwards the thread keeps its slot.
`Except.error` carries the `std::runtime_error` message. -/
def get_hazard_pointer_for_current_thread (owned : Option Nat) (tid : ThreadId)
    (table : List (Option ThreadId)) :
    Except String (Nat × List (Option ThreadId)) :=
  match owned with
  | some i => .ok (i, table)
  | none =>
    match hp_owner_ctor tid table with
    | some r => .ok r
    | none => .error "No hazard pointers available"

/-- A new thread's first `lock_free_stack::push` call: `push` allocates a
node and CAS-links it; it never consults the hazard table and has no failure
path (lock_free_stack.h:88-101), so the call cannot report hazard-table
exhaustion. -/
def first_push_attempt (_tid : ThreadId) (_table : List (Option ThreadId))
    (v : V) (s : StackState V) : Except String (StackState V) :=
  .ok (push v s)

/-- A new thread's first `lock_free_stack::pop_using_hazard_pointers` call:
`get_hazard_pointer_for_current_thread()` constructs the thread's `hp_owner`
first; if the table is exhausted the constructor's exception propagates,
otherwise the pop proceeds with the claimed slot. -/
def first_hazard_pop_attempt (tid : ThreadId) (table : List (Option ThreadId))
    (s : StackState V) : Except String (Option V × StackState V) :=
  match hp_owner_ctor tid table with
  | some r => .ok (pop_using_hazard_pointers r.1 s)
  | none => .error "No hazard pointers available"

/-! ### Event-level model of `pop_using_hazard_pointers`
(lock_free_stack.h:131-163), to settle the publish/confirm/CAS/clear
protocol.  The atomic steps of one call are recorded as events; the values
returned by the successive `head.load()` calls while other threads are still
changing `head`, and the CAS outcomes, are parameters. -/

/-- One atomic step of the calling thread, as seen by the hazard protocol:
`hp.store(old_head)`, `old_head = head.load()`, the unlink
`compare_exchange_strong` on node `n`, and `hp.store(nullptr)`. -/
inductive HpEvent where
  | publish (p : Option NodeId)
  | read_head (p : Option NodeId)
  | cas_attempt (n : NodeId)
  | clear_slot
  deriving Repr, DecidableEq

/-- The inner protect loop (lock_free_stack.h:140-144):
`do { temp = old_head; hp.store(old_head); old_head = head.load(); } while
(old_head != temp);`.  `heads` lists the values the successive `head.load()`
calls return while other threads still move `head`; once it is exhausted,
`head` is stable and `load` returns the value just published.  Returns the
confirmed candidate together with the step trace. -/
def protect (old_head : Option NodeId) :
    List (Option NodeId) → Option NodeId × List HpEvent
  | [] => (old_head, [.publish old_head, .read_head old_head])
  | h :: hs =>
    if h = old_head then
      (old_head, [.publish old_head, .read_head h])
    else
      let r := protect h hs
      (r.1, .publish old_head :: .read_head h :: r.2)

/-- Interference met by one iteration of the outer do-while loop
(lock_free_stack.h:135-149): the head values seen inside the protect loop,
and — when the unlink CAS fails — the head value the failing
`compare_exchange_strong` writes back into `old_head`. -/
structure Round where
  heads_seen : List (Option NodeId)
  cas_fails_to : Option (Option NodeId)

/-- The outer do-while loop of `pop_using_hazard_pointers`: protect the
candidate, leave the loop if it is null, otherwise attempt the unlink CAS,
retrying on failure with the head value the CAS reported.  After the last
listed round the CAS succeeds.  Returns the unlinked candidate and the step
trace. -/
def pop_loop (old_head : Option NodeId) :
    List Round → Option NodeId × List HpEvent
  | [] =>
    let r := protect old_head []
    match r.1 with
    | none => (none, r.2)
    | some n => (some n, r.2 ++ [.cas_attempt n])
  | rd :: rds =>
    let r := protect old_head rd.heads_seen
    match r.1 with
    | none => (none, r.2)
    | some n =>
      match rd.cas_fails_to with
      | none => (some n, r.2 ++ [.cas_attempt n])
      | some new_head =>
        let r' := pop_loop new_head rds
        (r'.1, r.2 ++ [.cas_attempt n] ++ r'.2)

/-- The full step trace of one `pop_using_hazard_pointers` call: the outer
loop followed by `hp.store(nullptr)` (lock_free_stack.h:151), which runs
before the function returns on every path. -/
def pop_hz_trace (head0 : Option NodeId) (rounds : List Round) : List HpEvent :=
  (pop_loop head0 rounds).2 ++ [.clear_slot]

/-- Protocol-automaton state while replaying a trace: the current content of
the thread's hazard slot, and the value of the last `head.load()` performed
since the last publication (`none` if head has not been re-read since). -/
structure ProtState where
  slot : Option NodeId
  confirmed : Option (Option NodeId)
  deriving Repr, DecidableEq

/-- Effect of one event on the protocol state: publishing overwrites the slot
and invalidates any earlier confirmation; a head read records its value as
the confirmation; clearing nulls the slot. -/
def prot_step (st : ProtState) : HpEvent → ProtState
  | .publish p => ⟨p, none⟩
  | .read_head p => ⟨st.slot, some p⟩
  | .cas_attempt _ => st
  | .clear_slot => ⟨none, st.confirmed⟩

/-- Replay a trace from a protocol state. -/
def prot_run (st : ProtState) (tr : List HpEvent) : ProtState :=
  tr.foldl prot_step st

/-- The guard the claim states: every `cas_attempt n` happens in a state
where the thread's slot holds `n`'s address and the last head read — made
after that publication — returned `n`'s address. -/
def cas_guarded : ProtState → List HpEvent → Bool
  | _, [] => true
  | st, e :: tr =>
    (match e with
     | .cas_attempt n => st.slot == some n && st.confirmed == some (some n)
     | _ => true) && cas_guarded (prot_step st e) tr

end LockFreeStack

namespace refcount

open LockFreeStack (NodeId)

/-! ### Split-reference-count stack (`lock_free_stack_ref_count.h`) -/

/-- The winner's reclamation step (lock_free_stack_ref_count.h:105-113),
after its unlink CAS succeeded having observed `external_count` on the head
it removed: `count_increase = external_count - 2`, then
`internal_count.fetch_add(count_increase)`; the node is `delete`d when the
previous value equals `-count_increase`.  Returns (new internal count,
whether this thread deletes the node). -/
def winner_reclaim (internal_count : Int) (external_count : Int) : Int × Bool :=
  let count_increase := external_count - 2
  let prev := internal_count
  (prev + count_increase, prev == -count_increase)

/-- The loser's reclamation step (lock_free_stack_ref_count.h:124-127), after
its unlink CAS failed because the node was removed or the head changed:
`internal_count.fetch_sub(1)`; the node is `delete`d when the previous value
equals 1.  Returns (new internal count, whether this thread deletes the
node). -/
def loser_reclaim (internal_count : Int) : Int × Bool :=
  let prev := internal_count
  (prev - 1, prev == 1)

/-- State of one `refcount::lock_free_stack<V>`:

* `stack` — the `counted_node_ptr` chain from `head`: each entry is the
  node's identity with the `external_count` stored alongside the pointer;
* `internal_count` — each node's atomic internal count;
* `payload`, `freed`, `fresh` — as for the other stack. -/
structure RcState (V : Type) where
  stack : List (NodeId × Int)
  internal_count : NodeId → Int
  payload : NodeId → Option V
  freed : List NodeId
  fresh : NodeId

/-- A freshly constructed split-count stack. -/
def RcState.init (V : Type) : RcState V where
  stack := []
  internal_count := fun _ => 0
  payload := fun _ => none
  freed := []
  fresh := 0

variable {V : Type}

/-- `refcount::lock_free_stack::push` (lock_free_stack_ref_count.h:59-67):
allocate a node (`internal_count = 0`), wrap it with `external_count = 1`,
CAS it in front of the head. -/
def push (v : V) (s : RcState V) : RcState V :=
  { s with
    stack := (s.fresh, 1) :: s.stack
    internal_count := fun n => if n = s.fresh then 0 else s.internal_count n
    payload := fun n => if n = s.fresh then some v else s.payload n
    fresh := s.fresh + 1 }

/-- `refcount::lock_free_stack::pop` (lock_free_stack_ref_count.h:83-129) run
as one completed, uninterfered call: `increase_head_count` bumps the external
count on the head cell, a null pointer returns the empty result, otherwise
the unlink CAS succeeds, the payload is swapped out, and the winner's
fetch-add decides deletion. -/
def pop (s : RcState V) : Option V × RcState V :=
  match s.stack with
  | [] => (none, s)
  | (h, e) :: t =>
    -- increase_head_count: the external count travels with the pointer
    let ext := e + 1
    let res := s.payload h
    let payload' := fun n => if n = h then none else s.payload n
    let (new_count, deletes) := winner_reclaim (s.internal_count h) ext
    if deletes then
      (res, { s with stack := t, payload := payload', freed := s.freed ++ [h] })
    else
      (res, { s with
              stack := t
              payload := payload'
              internal_count := fun n => if n = h then new_count else s.internal_count n })

/-- One whole-call operation on the split-count stack. -/
inductive RcOp (V : Type) where
  | push (v : V)
  | pop

/-- Apply one operation. -/
def rc_step : RcOp V → RcState V → RcState V
  | .push v, s => push v s
  | .pop, s => (pop s).2

/-- Run a sequence of operations from a state. -/
def rc_run (ops : List (RcOp V)) (s : RcState V) : RcState V :=
  ops.foldl (fun s op => rc_step op s) s

/-- Every node identity the split-count state accounts for. -/
def rc_all_nodes (s : RcState V) : Multiset NodeId :=
  (s.stack.map Prod.fst : Multiset NodeId) + (s.freed : Multiset NodeId)

/-- Structural invariant for the split-count stack. -/
def RcInv (s : RcState V) : Prop :=
  (rc_all_nodes s).Nodup ∧ (∀ n ∈ rc_all_nodes s, n < s.fresh)

end refcount

/-! ## Lemmas and claim theorems -/

namespace LockFreeStack

/-- Unfolding of the reclaim loop: the nodes with no outstanding hazard
pointer are deleted in traversal order, the rest are CAS-pushed back. -/
theorem reclaim_loop_eq (slots : List (Option NodeId)) (l acc recl : List NodeId) :
    reclaim_loop slots l acc recl =
      (acc ++ l.filter (fun c => !outstanding_hazard_pointers_for c slots),
       (l.filter (fun c => outstanding_hazard_pointers_for c slots)).reverse ++ recl) := by
  induction l generalizing acc recl with
  | nil => simp [reclaim_loop]
  | cons c rest ih =>
    cases hc : outstanding_hazard_pointers_for c slots <;>
      simp [reclaim_loop, hc, ih, add_to_reclaim_list, List.filter_cons]

/-- The sweep splits the claimed list into deleted and re-chained nodes. -/
theorem delete_nodes_with_no_hazards_eq (slots : List (Option NodeId))
    (l : List NodeId) :
    delete_nodes_with_no_hazards slots l =
      (l.filter (fun c => !outstanding_hazard_pointers_for c slots),
       (l.filter (fun c => outstanding_hazard_pointers_for c slots)).reverse) := by
  simp [delete_nodes_with_no_hazards, reclaim_loop_eq]

/-- Splitting a list by a Bool predicate preserves its multiset. -/
theorem coe_filter_split (p : NodeId → Bool) (l : List NodeId) :
    (↑(l.filter p) : Multiset NodeId) + ↑(l.filter (fun x => !p x)) = ↑l := by
  rw [Multiset.coe_add, Multiset.coe_eq_coe]
  exact List.filter_append_perm p l

/-- Rearrangement helper: two multiset sums that agree up to a common part
`C` and the sides of an equation. -/
theorem add_rearrange (C : Multiset NodeId) {A B X Y : Multiset NodeId}
    (h : A = B) (hx : X = C + A) (hy : Y = C + B) : X = Y := by
  rw [hx, hy, h]

/-- A completed `try_reclaim` call only moves nodes between the deferred list
and the deletion log: together with the argument node they are conserved. -/
theorem try_reclaim_coe (oh : Option NodeId) (cc cd : Nat) (tbd : List NodeId)
    (r : ReclaimResult) (hr : try_reclaim oh cc cd tbd = some r) :
    (↑r.freed : Multiset NodeId) + ↑r.to_be_deleted = ↑oh.toList + ↑tbd := by
  rcases oh with _ | h <;> by_cases h1 : cc = 1 <;> by_cases h2 : cd - 1 = 0 <;>
      simp [try_reclaim, h1, h2] at hr <;> subst hr <;>
      simp only [← Multiset.coe_add, ← Multiset.cons_coe, ← Multiset.singleton_add,
        Multiset.coe_singleton, Multiset.coe_nil, Option.toList] <;>
      abel

/-- Every node a completed `try_reclaim` leaves on the deferred list came
from the argument or from the previous deferred list. -/
theorem try_reclaim_tbd_sub (oh : Option NodeId) (cc cd : Nat) (tbd : List NodeId)
    (r : ReclaimResult) (hr : try_reclaim oh cc cd tbd = some r) :
    ∀ n, n ∈ r.to_be_deleted → oh = some n ∨ n ∈ tbd := by
  rcases oh with _ | h <;> by_cases h1 : cc = 1 <;> by_cases h2 : cd - 1 = 0 <;>
      simp [try_reclaim, h1, h2] at hr <;> subst hr <;> intro n hn <;>
      simp at hn
  · exact Or.inr hn
  · exact Or.inr hn
  · rcases hn with rfl | hn
    · exact Or.inl rfl
    · exact Or.inr hn
  · rcases hn with rfl | hn
    · exact Or.inl rfl
    · exact Or.inr hn

/-- The head chain splits as its optional head plus its tail. -/
theorem stack_coe_split (l : List NodeId) :
    (↑l : Multiset NodeId) = ↑l.head?.toList + ↑l.tail := by
  cases l <;> simp

/-- `push` allocates exactly one fresh node and touches no list but the
stack chain. -/
theorem all_nodes_push (v : V) (s : StackState V) :
    all_nodes (push v s) = s.fresh ::ₘ all_nodes s := by
  simp [all_nodes, push, ← Multiset.cons_coe]

/-- A `pop` call conserves the accounted node identities: it only moves them
between the stack, the deferred list and the deletion log. -/
theorem all_nodes_pop (mid : Nat) (s : StackState V) :
    all_nodes ((pop mid s).2) = all_nodes s := by
  rcases htr : try_reclaim s.stack.head? (s.threads_in_pop + 1)
      (s.threads_in_pop + 1 + mid) s.to_be_deleted with _ | r
  · simp [pop, htr]
  · have hco := try_reclaim_coe _ _ _ _ _ htr
    simp only [pop, htr]
    simp only [all_nodes, ← Multiset.coe_add]
    refine add_rearrange
      ((↑s.stack.tail : Multiset NodeId) + ↑s.nodes_to_reclaim + ↑s.freed)
      hco ?_ ?_
    · abel
    · conv_lhs => rw [stack_coe_split s.stack]
      abel

/-- A `pop_using_hazard_pointers` call conserves the accounted node
identities. -/
theorem all_nodes_pop_hz (i : Nat) (s : StackState V) :
    all_nodes ((pop_using_hazard_pointers i s).2) = all_nodes s := by
  rcases hst : s.stack with _ | ⟨h, t⟩
  · simp [pop_using_hazard_pointers, hst, all_nodes]
  · cases hout : outstanding_hazard_pointers_for h (s.hazard_pointers.set i none)
    · -- no slot references the unlinked node: it is deleted immediately
      simp only [pop_using_hazard_pointers, hst, hout, delete_nodes_with_no_hazards_eq,
        Bool.false_eq_true, if_false]
      simp only [all_nodes, Multiset.coe_reverse, ← Multiset.coe_add,
        ← Multiset.cons_coe, ← Multiset.singleton_add, Multiset.coe_singleton]
      refine add_rearrange
        ((↑t : Multiset NodeId) + ↑s.to_be_deleted + ↑s.freed + {h})
        (coe_filter_split
          (fun c => outstanding_hazard_pointers_for c (s.hazard_pointers.set i none))
          s.nodes_to_reclaim) ?_ ?_
      · abel
      · rw [hst]
        simp only [← Multiset.cons_coe, ← Multiset.singleton_add]
        abel
    · -- some slot references it: it is chained onto the reclaim list,
      -- and the sweep re-partitions that list
      simp only [pop_using_hazard_pointers, hst, hout, delete_nodes_with_no_hazards_eq,
        if_true, add_to_reclaim_list]
      simp only [all_nodes, Multiset.coe_reverse, ← Multiset.coe_add,
        ← Multiset.cons_coe, ← Multiset.singleton_add, Multiset.coe_singleton,
        Multiset.coe_nil]
      refine add_rearrange
        ((↑t : Multiset NodeId) + ↑s.to_be_deleted + ↑s.freed)
        (coe_filter_split
          (fun c => outstanding_hazard_pointers_for c (s.hazard_pointers.set i none))
          (h :: s.nodes_to_reclaim)) ?_ ?_
      · abel
      · rw [hst]
        simp only [← Multiset.cons_coe, ← Multiset.singleton_add]
        abel

/-- A standalone sweep conserves the accounted node identities. -/
theorem all_nodes_run_sweep (s : StackState V) :
    all_nodes (run_sweep s) = all_nodes s := by
  simp only [run_sweep, delete_nodes_with_no_hazards_eq]
  simp only [all_nodes, Multiset.coe_reverse, ← Multiset.coe_add]
  refine add_rearrange
    ((↑s.stack : Multiset NodeId) + ↑s.to_be_deleted + ↑s.freed)
    (coe_filter_split
      (fun c => outstanding_hazard_pointers_for c s.hazard_pointers)
      s.nodes_to_reclaim) ?_ ?_
  · abel
  · abel

/-- `try_reclaim` on a non-null unlinked node always completes: both
branches produce a result. -/
theorem try_reclaim_some_isSome (h : NodeId) (cc cd : Nat) (tbd : List NodeId) :
    ∃ r, try_reclaim (some h) cc cd tbd = some r := by
  by_cases h1 : cc = 1
  · by_cases h2 : cd - 1 = 0 <;> simp [try_reclaim, h1, h2]
  · simp [try_reclaim, h1]

/-- Membership across the accounted node identities. -/
theorem mem_all_nodes {s : StackState V} {n : NodeId} :
    n ∈ all_nodes s ↔
      n ∈ s.stack ∨ n ∈ s.to_be_deleted ∨ n ∈ s.nodes_to_reclaim ∨ n ∈ s.freed := by
  simp [all_nodes, or_assoc]

/-- The invariant holds in the initial state. -/
theorem inv_init (V : Type) (num_slots : Nat) : Inv (StackState.init V num_slots) := by
  refine ⟨?_, ?_, ?_⟩ <;> simp [Inv, StackState.init, all_nodes]

/-- `push` preserves the invariant: the new node is fresh. -/
theorem inv_push (v : V) (s : StackState V) (hs : Inv s) : Inv (push v s) := by
  obtain ⟨h1, h2, h3⟩ := hs
  refine ⟨?_, ?_, ?_⟩
  · rw [all_nodes_push]
    exact Multiset.nodup_cons.mpr ⟨fun hmem => absurd (h2 _ hmem) (lt_irrefl _), h1⟩
  · rw [all_nodes_push]
    intro n hn
    rcases Multiset.mem_cons.mp hn with rfl | hn
    · simp [push]
    · simp only [push]
      exact Nat.lt_succ_of_lt (h2 _ hn)
  · intro n hn
    simp only [push] at hn
    have hlt : n < s.fresh := h2 n (mem_all_nodes.mpr (by
      rcases hn with hn | hn
      · exact Or.inr (Or.inl hn)
      · exact Or.inr (Or.inr (Or.inl hn))))
    simp only [push, if_neg (Nat.ne_of_lt hlt)]
    exact h3 n hn

/-- `pop` preserves the invariant on every path, including the stuck
undefined-behaviour path. -/
theorem inv_pop (mid : Nat) (s : StackState V) (hs : Inv s) : Inv ((pop mid s).2) := by
  obtain ⟨h1, h2, h3⟩ := hs
  rcases htr : try_reclaim s.stack.head? (s.threads_in_pop + 1)
      (s.threads_in_pop + 1 + mid) s.to_be_deleted with _ | r
  · simp only [pop, htr]
    exact ⟨h1, h2, h3⟩
  · have hsub := try_reclaim_tbd_sub _ _ _ _ _ htr
    refine ⟨?_, ?_, ?_⟩
    · rw [all_nodes_pop]
      exact h1
    · rw [all_nodes_pop]
      have hfr : ((pop mid s).2).fresh = s.fresh := by simp [pop, htr]
      rw [hfr]
      exact h2
    · intro n hn
      simp only [pop, htr] at hn ⊢
      by_cases hh : some n = s.stack.head?
      · simp [hh]
      · simp only [if_neg hh]
        rcases hn with hn | hn
        · rcases hsub n hn with heq | hmem
          · exact absurd heq.symm hh
          · exact h3 n (Or.inl hmem)
        · exact h3 n (Or.inr hn)

/-- `pop_using_hazard_pointers` preserves the invariant on every path. -/
theorem inv_pop_hz (i : Nat) (s : StackState V) (hs : Inv s) :
    Inv ((pop_using_hazard_pointers i s).2) := by
  obtain ⟨h1, h2, h3⟩ := hs
  refine ⟨?_, ?_, ?_⟩
  · rw [all_nodes_pop_hz]
    exact h1
  · rw [all_nodes_pop_hz]
    have hfr : ((pop_using_hazard_pointers i s).2).fresh = s.fresh := by
      rcases hst : s.stack with _ | ⟨h, t⟩
      · simp [pop_using_hazard_pointers, hst]
      · cases hout : outstanding_hazard_pointers_for h (s.hazard_pointers.set i none) <;>
          simp [pop_using_hazard_pointers, hst, hout, delete_nodes_with_no_hazards_eq]
    rw [hfr]
    exact h2
  · intro n hn
    rcases hst : s.stack with _ | ⟨h, t⟩
    · simp only [pop_using_hazard_pointers, hst] at hn ⊢
      exact h3 n hn
    · cases hout : outstanding_hazard_pointers_for h (s.hazard_pointers.set i none)
      · simp only [pop_using_hazard_pointers, hst, hout, delete_nodes_with_no_hazards_eq,
          Bool.false_eq_true, if_false] at hn ⊢
        by_cases hnh : n = h
        · simp [hnh]
        · simp only [if_neg hnh]
          rcases hn with hn | hn
          · exact h3 n (Or.inl hn)
          · have hmem : n ∈ s.nodes_to_reclaim :=
              (List.mem_filter.mp (List.mem_reverse.mp hn)).1
            exact h3 n (Or.inr hmem)
      · simp only [pop_using_hazard_pointers, hst, hout, delete_nodes_with_no_hazards_eq,
          if_true, add_to_reclaim_list] at hn ⊢
        by_cases hnh : n = h
        · simp [hnh]
        · simp only [if_neg hnh]
          rcases hn with hn | hn
          · exact h3 n (Or.inl hn)
          · have hmem : n ∈ h :: s.nodes_to_reclaim :=
              (List.mem_filter.mp (List.mem_reverse.mp hn)).1
            rcases List.mem_cons.mp hmem with rfl | hmem
            · exact absurd rfl hnh
            · exact h3 n (Or.inr hmem)

/-- A standalone sweep preserves the invariant. -/
theorem inv_run_sweep (s : StackState V) (hs : Inv s) : Inv (run_sweep s) := by
  obtain ⟨h1, h2, h3⟩ := hs
  refine ⟨?_, ?_, ?_⟩
  · rw [all_nodes_run_sweep]
    exact h1
  · rw [all_nodes_run_sweep]
    have hfr : (run_sweep s).fresh = s.fresh := by
      simp [run_sweep, delete_nodes_with_no_hazards_eq]
    rw [hfr]
    exact h2
  · intro n hn
    simp only [run_sweep, delete_nodes_with_no_hazards_eq] at hn ⊢
    rcases hn with hn | hn
    · exact h3 n (Or.inl hn)
    · have hmem : n ∈ s.nodes_to_reclaim :=
        (List.mem_filter.mp (List.mem_reverse.mp hn)).1
      exact h3 n (Or.inr hmem)

/-- Every operation preserves the invariant. -/
theorem inv_step (op : Op V) (s : StackState V) (hs : Inv s) : Inv (step op s) := by
  cases op with
  | push v => exact inv_push v s hs
  | pop mid => exact inv_pop mid s hs
  | pop_hz i => exact inv_pop_hz i s hs
  | publish i p => exact hs
  | sweep => exact inv_run_sweep s hs
  | phantom_enter => exact hs

/-- The invariant holds along every run. -/
theorem inv_run (ops : List (Op V)) (s : StackState V) (hs : Inv s) :
    Inv (run ops s) := by
  induction ops generalizing s with
  | nil => exact hs
  | cons op rest ih => exact ih _ (inv_step op s hs)

/-- No operation ever removes a node from the deletion log. -/
theorem freed_step_mono (op : Op V) (s : StackState V) {n : NodeId}
    (hn : n ∈ s.freed) : n ∈ (step op s).freed := by
  cases op with
  | push v => simpa [step, push] using hn
  | pop mid =>
    rcases htr : try_reclaim s.stack.head? (s.threads_in_pop + 1)
        (s.threads_in_pop + 1 + mid) s.to_be_deleted with _ | r <;>
      simp only [step, pop, htr]
    · exact hn
    · exact List.mem_append.mpr (Or.inl hn)
  | pop_hz i =>
    rcases hst : s.stack with _ | ⟨h, t⟩
    · simpa [step, pop_using_hazard_pointers, hst] using hn
    · cases hout : outstanding_hazard_pointers_for h (s.hazard_pointers.set i none) <;>
        simp only [step, pop_using_hazard_pointers, hst, hout,
          delete_nodes_with_no_hazards_eq, Bool.false_eq_true, if_false, if_true,
          add_to_reclaim_list] <;>
        exact List.mem_append.mpr (Or.inl (List.mem_append.mpr (Or.inl hn)))
  | publish i p => exact hn
  | sweep =>
    simp only [step, run_sweep, delete_nodes_with_no_hazards_eq]
    exact List.mem_append.mpr (Or.inl hn)
  | phantom_enter => exact hn

/-- The deletion log only grows along a run. -/
theorem freed_run_mono (ops : List (Op V)) (s : StackState V) {n : NodeId}
    (hn : n ∈ s.freed) : n ∈ (run ops s).freed := by
  induction ops generalizing s with
  | nil => exact hn
  | cons op rest ih => exact ih _ (freed_step_mono op s hn)

/-- Under the invariant, a freed node is in none of the shared lists. -/
theorem inv_freed_not_live {s : StackState V} (hs : Inv s) {n : NodeId}
    (hn : n ∈ s.freed) :
    n ∉ s.stack ∧ n ∉ s.to_be_deleted ∧ n ∉ s.nodes_to_reclaim := by
  have h1 := hs.1
  rw [show all_nodes s = ((↑s.stack : Multiset NodeId) + ↑s.to_be_deleted +
      ↑s.nodes_to_reclaim) + ↑s.freed from rfl] at h1
  have hdisj := (Multiset.nodup_add.mp h1).2.2
  have key : n ∉ ((↑s.stack : Multiset NodeId) + ↑s.to_be_deleted + ↑s.nodes_to_reclaim) :=
    fun hmem => Multiset.disjoint_left.mp hdisj hmem (by simpa using hn)
  refine ⟨?_, ?_, ?_⟩ <;> intro hmem <;> exact key (by simp [hmem])

/-- Under the invariant, the deletion log has no duplicates. -/
theorem inv_freed_nodup {s : StackState V} (hs : Inv s) : s.freed.Nodup := by
  have h1 := hs.1
  rw [show all_nodes s = ((↑s.stack : Multiset NodeId) + ↑s.to_be_deleted +
      ↑s.nodes_to_reclaim) + ↑s.freed from rfl] at h1
  simpa using (Multiset.nodup_add.mp h1).2.1

end LockFreeStack

namespace LockFreeStack

/-- A protect loop generates only publications and head reads. -/
theorem protect_no_cas_no_clear (oh : Option NodeId) (heads : List (Option NodeId)) :
    ∀ e ∈ (protect oh heads).2,
      (∃ p, e = HpEvent.publish p) ∨ ∃ p, e = HpEvent.read_head p := by
  induction heads generalizing oh with
  | nil =>
    intro e he
    simp only [protect, List.mem_cons] at he
    rcases he with rfl | rfl | h
    · exact Or.inl ⟨oh, rfl⟩
    · exact Or.inr ⟨oh, rfl⟩
    · simp at h
  | cons h hs ih =>
    intro e he
    by_cases hh : h = oh
    · simp only [protect, if_pos hh, List.mem_cons] at he
      rcases he with rfl | rfl | hmem
      · exact Or.inl ⟨oh, rfl⟩
      · exact Or.inr ⟨h, rfl⟩
      · simp at hmem
    · simp only [protect, if_neg hh, List.mem_cons] at he
      rcases he with rfl | rfl | hmem
      · exact Or.inl ⟨oh, rfl⟩
      · exact Or.inr ⟨h, rfl⟩
      · exact ih h e hmem

/-- All CAS guards hold inside a protect loop (it attempts none). -/
theorem protect_guarded (st : ProtState) (oh : Option NodeId)
    (heads : List (Option NodeId)) :
    cas_guarded st (protect oh heads).2 = true := by
  induction heads generalizing st oh with
  | nil => simp [protect, cas_guarded]
  | cons h hs ih =>
    by_cases hh : h = oh
    · simp [protect, if_pos hh, cas_guarded]
    · simp only [protect, if_neg hh]
      simp [cas_guarded]
      exact ih _ _

/-- Replaying a protect loop leaves the slot holding the confirmed candidate,
with the confirming head read made after the publication. -/
theorem protect_run (st : ProtState) (oh : Option NodeId)
    (heads : List (Option NodeId)) :
    prot_run st (protect oh heads).2 =
      ⟨(protect oh heads).1, some (protect oh heads).1⟩ := by
  induction heads generalizing st oh with
  | nil => simp [protect, prot_run, prot_step]
  | cons h hs ih =>
    by_cases hh : h = oh
    · simp [protect, if_pos hh, prot_run, prot_step, hh]
    · simp only [protect, if_neg hh]
      simp only [prot_run, List.foldl_cons, prot_step]
      exact ih _ _

/-- The CAS guard check distributes over trace concatenation. -/
theorem cas_guarded_append (st : ProtState) (tr1 tr2 : List HpEvent) :
    cas_guarded st (tr1 ++ tr2) =
      (cas_guarded st tr1 && cas_guarded (prot_run st tr1) tr2) := by
  induction tr1 generalizing st with
  | nil => simp [cas_guarded, prot_run]
  | cons e tr ih =>
    simp only [List.cons_append, cas_guarded, prot_run, List.foldl_cons,
      List.append_eq]
    rw [ih]
    cases e <;> simp [Bool.and_assoc, prot_run]

/-- Every CAS the outer pop loop attempts is guarded: the slot holds the
candidate and the head was re-read equal after publication. -/
theorem pop_loop_guarded (st : ProtState) (oh : Option NodeId)
    (rounds : List Round) :
    cas_guarded st (pop_loop oh rounds).2 = true := by
  induction rounds generalizing st oh with
  | nil =>
    rcases hc : (protect oh []).1 with _ | n
    · simp only [pop_loop, hc]
      exact protect_guarded st oh []
    · simp only [pop_loop, hc]
      rw [cas_guarded_append, protect_run, hc]
      simp [protect_guarded, cas_guarded]
  | cons rd rds ih =>
    rcases hc : (protect oh rd.heads_seen).1 with _ | n
    · simp only [pop_loop, hc]
      exact protect_guarded st oh rd.heads_seen
    · rcases hf : rd.cas_fails_to with _ | nh
      · simp only [pop_loop, hc, hf]
        rw [cas_guarded_append, protect_run, hc]
        simp [protect_guarded, cas_guarded]
      · simp only [pop_loop, hc, hf]
        rw [cas_guarded_append, cas_guarded_append, protect_run, hc]
        simp [protect_guarded, cas_guarded]
        exact ih _ _

/-- The outer pop loop never clears the slot. -/
theorem pop_loop_no_clear (oh : Option NodeId) (rounds : List Round) :
    HpEvent.clear_slot ∉ (pop_loop oh rounds).2 := by
  induction rounds generalizing oh with
  | nil =>
    rcases hc : (protect oh []).1 with _ | n <;> simp only [pop_loop, hc] <;>
      intro hmem
    · rcases protect_no_cas_no_clear oh [] _ hmem with ⟨p, hp⟩ | ⟨p, hp⟩ <;> cases hp
    · rcases List.mem_append.mp hmem with hmem | hmem
      · rcases protect_no_cas_no_clear oh [] _ hmem with ⟨p, hp⟩ | ⟨p, hp⟩ <;> cases hp
      · simp at hmem
  | cons rd rds ih =>
    rcases hc : (protect oh rd.heads_seen).1 with _ | n
    · simp only [pop_loop, hc]
      intro hmem
      rcases protect_no_cas_no_clear oh rd.heads_seen _ hmem with ⟨p, hp⟩ | ⟨p, hp⟩ <;>
        cases hp
    · rcases hf : rd.cas_fails_to with _ | nh <;> simp only [pop_loop, hc, hf] <;>
        intro hmem
      · rcases List.mem_append.mp hmem with hmem | hmem
        · rcases protect_no_cas_no_clear oh rd.heads_seen _ hmem with ⟨p, hp⟩ | ⟨p, hp⟩ <;>
            cases hp
        · simp at hmem
      · rcases List.mem_append.mp hmem with hmem | hmem
        · rcases List.mem_append.mp hmem with hmem | hmem
          · rcases protect_no_cas_no_clear oh rd.heads_seen _ hmem with ⟨p, hp⟩ | ⟨p, hp⟩ <;>
              cases hp
          · simp at hmem
        · exact ih nh hmem

/-- Replaying the full trace leaves the slot null at return. -/
theorem pop_hz_trace_final_slot (head0 : Option NodeId) (rounds : List Round)
    (st : ProtState) :
    (prot_run st (pop_hz_trace head0 rounds)).slot = none := by
  simp [pop_hz_trace, prot_run, List.foldl_append, prot_step]

end LockFreeStack

namespace refcount

open LockFreeStack (NodeId)

/-- The invariant holds in the initial split-count state. -/
theorem rc_inv_init (V : Type) : RcInv (RcState.init V) := by
  refine ⟨?_, ?_⟩ <;> simp [RcInv, RcState.init, rc_all_nodes]

/-- `push` allocates exactly one fresh node. -/
theorem rc_all_nodes_push (v : V) (s : RcState V) :
    rc_all_nodes (push v s) = s.fresh ::ₘ rc_all_nodes s := by
  simp [rc_all_nodes, push, ← Multiset.cons_coe]

/-- `pop` never adds node identities to the accounting: it moves the head
node to the deletion log, or drops it (the node stays allocated with a
nonzero count when this call does not delete it). -/
theorem rc_all_nodes_pop (s : RcState V) :
    rc_all_nodes ((pop s).2) ≤ rc_all_nodes s := by
  rcases hst : s.stack with _ | ⟨⟨h, e⟩, t⟩
  · simp [pop, hst]
  · simp only [pop, hst, winner_reclaim]
    cases hdel : (s.internal_count h == -(e + 1 - 2))
    · simp only [Bool.false_eq_true, if_false]
      simp only [rc_all_nodes, hst, List.map_cons]
      rw [← Multiset.cons_coe, Multiset.cons_add]
      exact Multiset.le_cons_self _ _
    · simp only [if_true]
      refine le_of_eq ?_
      simp only [rc_all_nodes, hst, List.map_cons, ← Multiset.coe_add,
        ← Multiset.cons_coe, ← Multiset.singleton_add, Multiset.coe_singleton,
        Multiset.coe_nil]
      abel

/-- `pop` leaves `fresh` unchanged. -/
theorem rc_pop_fresh (s : RcState V) : ((pop s).2).fresh = s.fresh := by
  rcases hst : s.stack with _ | ⟨⟨h, e⟩, t⟩
  · simp [pop, hst]
  · simp only [pop, hst, winner_reclaim]
    cases hdel : (s.internal_count h == -(e + 1 - 2)) <;> simp

/-- Every split-count operation preserves the invariant. -/
theorem rc_inv_step (op : RcOp V) (s : RcState V) (hs : RcInv s) :
    RcInv (rc_step op s) := by
  obtain ⟨h1, h2⟩ := hs
  cases op with
  | push v =>
    refine ⟨?_, ?_⟩
    · rw [show rc_step (RcOp.push v) s = push v s from rfl, rc_all_nodes_push]
      exact Multiset.nodup_cons.mpr ⟨fun hmem => absurd (h2 _ hmem) (lt_irrefl _), h1⟩
    · rw [show rc_step (RcOp.push v) s = push v s from rfl, rc_all_nodes_push]
      intro n hn
      rcases Multiset.mem_cons.mp hn with rfl | hn
      · simp [push]
      · simp only [push]
        exact Nat.lt_succ_of_lt (h2 _ hn)
  | pop =>
    refine ⟨Multiset.nodup_of_le (rc_all_nodes_pop s) h1, ?_⟩
    intro n hn
    rw [show rc_step RcOp.pop s = (pop s).2 from rfl, rc_pop_fresh]
    exact h2 n (Multiset.mem_of_le (rc_all_nodes_pop s) hn)

/-- The invariant holds along every split-count run. -/
theorem rc_inv_run (ops : List (RcOp V)) (s : RcState V) (hs : RcInv s) :
    RcInv (rc_run ops s) := by
  induction ops generalizing s with
  | nil => exact hs
  | cons op rest ih => exact ih _ (rc_inv_step op s hs)

/-- No split-count operation removes a node from the deletion log. -/
theorem rc_freed_step_mono (op : RcOp V) (s : RcState V) {n : NodeId}
    (hn : n ∈ s.freed) : n ∈ (rc_step op s).freed := by
  cases op with
  | push v => simpa [rc_step, push] using hn
  | pop =>
    rcases hst : s.stack with _ | ⟨⟨h, e⟩, t⟩
    · simpa [rc_step, pop, hst] using hn
    · simp only [rc_step, pop, hst, winner_reclaim]
      cases hdel : (s.internal_count h == -(e + 1 - 2))
      · simpa using hn
      · simp only [if_true]
        exact List.mem_append.mpr (Or.inl hn)

/-- The split-count deletion log only grows along a run. -/
theorem rc_freed_run_mono (ops : List (RcOp V)) (s : RcState V) {n : NodeId}
    (hn : n ∈ s.freed) : n ∈ (rc_run ops s).freed := by
  induction ops generalizing s with
  | nil => exact hn
  | cons op rest ih => exact ih _ (rc_freed_step_mono op s hn)

/-- Under the invariant, a freed node is not in the stack chain, and the
deletion log has no duplicates. -/
theorem rc_inv_freed {s : RcState V} (hs : RcInv s) :
    s.freed.Nodup ∧ ∀ n ∈ s.freed, n ∉ s.stack.map Prod.fst := by
  have h1 := hs.1
  rw [show rc_all_nodes s = (↑(s.stack.map Prod.fst) : Multiset NodeId) + ↑s.freed
    from rfl] at h1
  obtain ⟨hst, hfr, hdisj⟩ := Multiset.nodup_add.mp h1
  refine ⟨by simpa using hfr, fun n hn hmem => ?_⟩
  exact Multiset.disjoint_left.mp hdisj (by simpa using hmem) (by simpa using hn)

end refcount

/-! ## Claim theorems -/

/-- C1: the claim says the reclamation step performed for the null unlinked
node (`try_reclaim` called with a null pointer) never dereferences a null
pointer, whatever the value of the threads-in-pop counter at the decision
point.  The code violates this: when the counter is 2 at the decision point
(two threads inside an empty-stack `pop`), the contended branch runs
`chain_pending_node(nullptr)`, whose first statement
`last->next = to_be_deleted` writes through the null pointer.  The model
reports that null dereference as `none`. -/
theorem C1_null_reclaim_dereferences_null :
    LockFreeStack.try_reclaim none 2 2 [] = none := rfl

/-- C2: in the split-reference-count pop, the winner's fetch-add of
(observed external count − 2) yields the new internal count and deletes the
node exactly when that resulting total is zero; the loser's fetch-sub(1)
deletes the node exactly when the subtraction drives the count to zero.  On
both paths the node is deleted precisely by the thread whose update brings
its reference count to zero. -/
theorem C2_split_count_delete_iff_zero (internal ext : Int) :
    ((refcount.winner_reclaim internal ext).1 = internal + (ext - 2) ∧
      ((refcount.winner_reclaim internal ext).2 = true ↔
        (refcount.winner_reclaim internal ext).1 = 0)) ∧
    ((refcount.loser_reclaim internal).1 = internal - 1 ∧
      ((refcount.loser_reclaim internal).2 = true ↔
        (refcount.loser_reclaim internal).1 = 0)) := by
  refine ⟨⟨rfl, ?_⟩, rfl, ?_⟩ <;>
    simp [refcount.winner_reclaim, refcount.loser_reclaim] <;> omega

/-- C3: when `threads_in_pop` reads 1 at the decision point, `try_reclaim`
claims the entire deferred list, decrements the counter, frees every claimed
node exactly when the decrement reached zero and otherwise re-chains the
claimed nodes, and frees the just-unlinked node directly in that exclusive
branch; when the counter reads greater than 1, the unlinked node is chained
onto the deferred list and the counter is decremented. -/
theorem C3_try_reclaim_cases (h : LockFreeStack.NodeId) (cd : Nat)
    (defer : List LockFreeStack.NodeId) :
    (LockFreeStack.try_reclaim (some h) 1 cd defer =
      if cd - 1 = 0 then some ⟨defer ++ [h], [], cd - 1⟩
      else some ⟨[h], defer, cd - 1⟩) ∧
    (∀ cc, cc ≠ 1 →
      LockFreeStack.try_reclaim (some h) cc cd defer =
        some ⟨[], h :: defer, cd - 1⟩) := by
  constructor
  · by_cases h0 : cd - 1 = 0 <;> simp [LockFreeStack.try_reclaim, h0]
  · intro cc hcc
    simp [LockFreeStack.try_reclaim, hcc]

/-- Witness for C3 at concrete inputs: with counter 1 and deferred list [3],
reclaiming node 5 frees [3, 5] and empties the deferred list; with counter
2 it defers node 5 in front of [3]. -/
theorem C3_witness :
    LockFreeStack.try_reclaim (some 5) 1 1 [3] =
      some ⟨[3, 5], [], 0⟩ ∧
    LockFreeStack.try_reclaim (some 5) 2 2 [3] =
      some ⟨[], [5, 3], 1⟩ := by
  constructor
  · have h := (C3_try_reclaim_cases 5 1 [3]).1
    simpa using h
  · exact (C3_try_reclaim_cases 5 2 [3]).2 2 (by decide)

/-- C8: single-threaded LIFO order: after push(1), push(2), push(3),
successive `pop` calls return 3, then 2, then 1, and the fourth call
returns the empty result. -/
theorem C8_sequential_lifo :
    (let s3 := LockFreeStack.push 3 (LockFreeStack.push 2 (LockFreeStack.push 1
        (LockFreeStack.StackState.init Nat 4)))
     let p1 := LockFreeStack.pop 0 s3
     let p2 := LockFreeStack.pop 0 p1.2
     let p3 := LockFreeStack.pop 0 p2.2
     let p4 := LockFreeStack.pop 0 p3.2
     (p1.1, p2.1, p3.1, p4.1)) = (some 3, some 2, some 1, none) := by
  decide

/-- C9: `try_reclaim` performs exactly one decrement of `threads_in_pop` on
every completed path — the resulting counter is always the pre-decrement
value minus one — so a completed uninterfered `pop`, which increments the
counter on entry, leaves it at its entry value. -/
theorem C9_pop_counter_balanced :
    (∀ (oh : Option LockFreeStack.NodeId) (cc cd : Nat)
        (defer : List LockFreeStack.NodeId) (r : LockFreeStack.ReclaimResult),
        LockFreeStack.try_reclaim oh cc cd defer = some r →
        r.threads_in_pop = cd - 1) ∧
    (∀ (s : LockFreeStack.StackState Nat),
        s.stack ≠ [] ∨ s.threads_in_pop = 0 →
        ((LockFreeStack.pop 0 s).2).threads_in_pop = s.threads_in_pop) := by
  constructor
  · intro oh cc cd defer r hr
    rcases oh with _ | h <;> by_cases h1 : cc = 1 <;> by_cases h2 : cd - 1 = 0 <;>
        simp [LockFreeStack.try_reclaim, h1, h2] at hr <;> subst hr <;> simp [h2]
  · intro s hs
    rcases hst : s.stack with _ | ⟨h, t⟩
    · rcases hs with hne | h0
      · exact absurd hst hne
      · simp [LockFreeStack.pop, LockFreeStack.try_reclaim, hst, h0]
    · by_cases h1 : s.threads_in_pop + 1 = 1 <;>
        by_cases h2 : s.threads_in_pop + 1 + 0 - 1 = 0 <;>
        simp [LockFreeStack.pop, LockFreeStack.try_reclaim, hst, h1, h2] <;>
        omega

/-- Witness for C9 at concrete inputs: a contended `try_reclaim` from
pre-decrement value 7 leaves the counter at 6, and a `pop` from a singleton
stack leaves the counter at its entry value 0. -/
theorem C9_witness :
    (⟨[], [5], 6⟩ : LockFreeStack.ReclaimResult).threads_in_pop = 7 - 1 ∧
    ((LockFreeStack.pop 0 (LockFreeStack.push 1
        (LockFreeStack.StackState.init Nat 4))).2).threads_in_pop =
      (LockFreeStack.push 1 (LockFreeStack.StackState.init Nat 4)).threads_in_pop := by
  constructor
  · exact C9_pop_counter_balanced.1 (some 5) 2 7 [] ⟨[], [5], 6⟩ (by decide)
  · exact C9_pop_counter_balanced.2 _ (Or.inl (by decide))

/-- C5: a node handed to the hazard-pointer reclaimer is deleted immediately
exactly when no slot in the whole table holds its address, and is otherwise
chained onto the deferred list; the sweep run on every hazard pop claims the
entire deferred list and, for each claimed node, deletes it when no slot
references it and re-chains it otherwise. -/
theorem C5_hazard_reclaim_decisions (s : LockFreeStack.StackState Nat)
    (i : Nat) (h : LockFreeStack.NodeId) (t claimed : List LockFreeStack.NodeId)
    (slots : List (Option LockFreeStack.NodeId)) (hst : s.stack = h :: t) :
    (LockFreeStack.delete_nodes_with_no_hazards slots claimed =
      (claimed.filter
        (fun c => !LockFreeStack.outstanding_hazard_pointers_for c slots),
       (claimed.filter
        (fun c => LockFreeStack.outstanding_hazard_pointers_for c slots)).reverse)) ∧
    (LockFreeStack.outstanding_hazard_pointers_for h slots = true ↔
      some h ∈ slots) ∧
    (LockFreeStack.outstanding_hazard_pointers_for h
        (s.hazard_pointers.set i none) = false →
      (LockFreeStack.pop_using_hazard_pointers i s).2.freed =
        s.freed ++ [h] ++ s.nodes_to_reclaim.filter
          (fun c => !LockFreeStack.outstanding_hazard_pointers_for c
            (s.hazard_pointers.set i none)) ∧
      (LockFreeStack.pop_using_hazard_pointers i s).2.nodes_to_reclaim =
        (s.nodes_to_reclaim.filter
          (fun c => LockFreeStack.outstanding_hazard_pointers_for c
            (s.hazard_pointers.set i none))).reverse) ∧
    (LockFreeStack.outstanding_hazard_pointers_for h
        (s.hazard_pointers.set i none) = true →
      (LockFreeStack.pop_using_hazard_pointers i s).2.freed =
        s.freed ++ (h :: s.nodes_to_reclaim).filter
          (fun c => !LockFreeStack.outstanding_hazard_pointers_for c
            (s.hazard_pointers.set i none)) ∧
      (LockFreeStack.pop_using_hazard_pointers i s).2.nodes_to_reclaim =
        ((h :: s.nodes_to_reclaim).filter
          (fun c => LockFreeStack.outstanding_hazard_pointers_for c
            (s.hazard_pointers.set i none))).reverse) := by
  refine ⟨LockFreeStack.delete_nodes_with_no_hazards_eq slots claimed, ?_, ?_, ?_⟩
  · simp [LockFreeStack.outstanding_hazard_pointers_for, List.any_eq_true]
  · intro hout
    refine ⟨?_, ?_⟩ <;>
      simp only [LockFreeStack.pop_using_hazard_pointers, hst, hout,
        LockFreeStack.delete_nodes_with_no_hazards_eq, Bool.false_eq_true,
        if_false, List.append_nil, List.nil_append]
  · intro hout
    refine ⟨?_, ?_⟩ <;>
      simp only [LockFreeStack.pop_using_hazard_pointers, hst, hout,
        LockFreeStack.delete_nodes_with_no_hazards_eq, if_true,
        LockFreeStack.add_to_reclaim_list, List.append_nil, List.nil_append]

/-- Witness for C5 at concrete inputs: with the single slot protecting node
3, a sweep over claimed list [3, 4] deletes 4 and re-chains 3, the scan
reports node 3 as protected, and a hazard pop of unprotected node 0 deletes
it immediately. -/
theorem C5_witness :
    LockFreeStack.delete_nodes_with_no_hazards [some 3] [3, 4] = ([4], [3]) ∧
    (LockFreeStack.outstanding_hazard_pointers_for 3 [some 3] = true ↔
      some 3 ∈ [some 3]) ∧
    (LockFreeStack.pop_using_hazard_pointers 1
        (LockFreeStack.push 7 (LockFreeStack.StackState.init Nat 1))).2.freed =
      [0] := by
  have h := C5_hazard_reclaim_decisions
    (LockFreeStack.push 7 (LockFreeStack.StackState.init Nat 1)) 1 0 [] [3, 4]
    [some 3] rfl
  have h' := C5_hazard_reclaim_decisions
    (LockFreeStack.push 7 (LockFreeStack.push 7 (LockFreeStack.push 7
      (LockFreeStack.push 7 (LockFreeStack.StackState.init Nat 1))))) 1 3
    [2, 1, 0] [3, 4] [some 3] rfl
  refine ⟨by simpa [LockFreeStack.outstanding_hazard_pointers_for] using h.1,
    h'.2.1, ?_⟩
  have h3 := h.2.2.1 (by decide)
  simpa using h3.1

/-- C6: in `pop_using_hazard_pointers`, every unlink CAS attempt happens
while the thread's hazard slot holds the candidate's address and after head
has been re-read equal to that published address since the publication; and
the slot is cleared back to null exactly once, after the last CAS attempt
and before the call returns. -/
theorem C6_hazard_pop_protocol (head0 : Option LockFreeStack.NodeId)
    (rounds : List LockFreeStack.Round) :
    LockFreeStack.cas_guarded ⟨none, none⟩
        (LockFreeStack.pop_hz_trace head0 rounds) = true ∧
    (LockFreeStack.prot_run ⟨none, none⟩
        (LockFreeStack.pop_hz_trace head0 rounds)).slot = none ∧
    ∃ pre, LockFreeStack.pop_hz_trace head0 rounds =
        pre ++ [LockFreeStack.HpEvent.clear_slot] ∧
      LockFreeStack.HpEvent.clear_slot ∉ pre := by
  refine ⟨?_, LockFreeStack.pop_hz_trace_final_slot head0 rounds _,
    ⟨(LockFreeStack.pop_loop head0 rounds).2, rfl,
      LockFreeStack.pop_loop_no_clear head0 rounds⟩⟩
  rw [LockFreeStack.pop_hz_trace, LockFreeStack.cas_guarded_append]
  simp [LockFreeStack.pop_loop_guarded, LockFreeStack.cas_guarded]

/-- C7 counterexample: with a 4-slot table fully owned by threads 0–3, the
5th thread's first `push` attempt succeeds and reports nothing — `push`
never consults the hazard table — refuting the claim that a 5th thread's
first pop/push attempt reports the resource-exhausted condition. -/
theorem C7_fifth_thread_push_no_error :
    LockFreeStack.first_push_attempt 4 [some 0, some 1, some 2, some 3]
      (42 : Nat) (LockFreeStack.StackState.init Nat 4) =
    Except.ok (LockFreeStack.push 42 (LockFreeStack.StackState.init Nat 4)) := rfl

/-- C7 amended: a thread acquires a hazard slot lazily at first use by
scanning the fixed table for the first unowned entry and CAS-claiming it,
and keeps the slot on later calls; a fully owned table is the fatal
resource-exhaustion error; with slot capacity 4 and four owners, the 5th
thread's first hazard-pointer pop attempt reports the error (push does not
engage the table). -/
theorem C7_slot_acquisition (tid : LockFreeStack.ThreadId)
    (table : List (Option LockFreeStack.ThreadId)) :
    ((∀ e ∈ table, e.isSome) → LockFreeStack.hp_owner_ctor tid table = none) ∧
    (∀ k, (∀ j, j < k → (table.getD j none).isSome) →
        table.get? k = some none →
        LockFreeStack.hp_owner_ctor tid table =
          some (k, table.set k (some tid))) ∧
    (∀ i, LockFreeStack.get_hazard_pointer_for_current_thread (some i) tid table =
        Except.ok (i, table)) ∧
    (LockFreeStack.first_hazard_pop_attempt 4 [some 0, some 1, some 2, some 3]
        (LockFreeStack.StackState.init Nat 4) =
      Except.error "No hazard pointers available") := by
  refine ⟨?_, ?_, fun i => rfl, rfl⟩
  · induction table with
    | nil => intro _; rfl
    | cons e rest ih =>
      intro hall
      cases e with
      | none =>
        have := hall none (by simp)
        simp at this
      | some o =>
        simp only [LockFreeStack.hp_owner_ctor]
        rw [ih (fun x hx => hall x (by simp [hx]))]
        rfl
  · induction table with
    | nil =>
      intro k hk hg
      simp at hg
    | cons e rest ih =>
      intro k hk hg
      cases k with
      | zero =>
        simp only [List.get?] at hg
        cases hg
        rfl
      | succ k =>
        have he : e.isSome := by simpa using hk 0 (Nat.succ_pos k)
        rcases e with _ | o
        · simp at he
        · simp only [LockFreeStack.hp_owner_ctor, List.set]
          rw [ih k (fun j hj => by simpa using hk (j + 1) (by omega))
            (by simpa using hg)]
          rfl

/-- Witness for C7 at concrete inputs: a full 2-slot table exhausts, a table
with one free slot yields slot 1 claimed for thread 9, and a thread that
already owns slot 1 keeps it. -/
theorem C7_witness :
    LockFreeStack.hp_owner_ctor 9 [some 0, some 1] = none ∧
    LockFreeStack.hp_owner_ctor 9 [some 0, none] = some (1, [some 0, some 9]) ∧
    LockFreeStack.get_hazard_pointer_for_current_thread (some 1) 9
      [some 0, some 9] = Except.ok (1, [some 0, some 9]) := by
  refine ⟨(C7_slot_acquisition 9 [some 0, some 1]).1 (by decide), ?_,
    (C7_slot_acquisition 9 [some 0, some 9]).2.2.1 1⟩
  have h := (C7_slot_acquisition 9 [some 0, none]).2.1 1
    (fun j hj => by
      have hj0 : j = 0 := by omega
      subst hj0
      decide)
    (by decide)
  simpa using h

/-- C4: across every sequence of operations, in all three reclamation
strategies, each node is freed at most once (the deletion log has no
duplicates) and the Freed state is terminal: once a node is in the deletion
log, every later operation keeps it there and never re-chains it onto the
stack or any deferred-reclamation list. -/
theorem C4_node_freed_at_most_once (num_slots : Nat)
    (ops more : List (LockFreeStack.Op Nat))
    (rc_ops rc_more : List (refcount.RcOp Nat)) (n : LockFreeStack.NodeId) :
    ((LockFreeStack.run ops (LockFreeStack.StackState.init Nat num_slots)).freed.Nodup ∧
      (n ∈ (LockFreeStack.run ops (LockFreeStack.StackState.init Nat num_slots)).freed →
        n ∈ (LockFreeStack.run more
          (LockFreeStack.run ops (LockFreeStack.StackState.init Nat num_slots))).freed ∧
        n ∉ (LockFreeStack.run more
          (LockFreeStack.run ops (LockFreeStack.StackState.init Nat num_slots))).stack ∧
        n ∉ (LockFreeStack.run more
          (LockFreeStack.run ops (LockFreeStack.StackState.init Nat num_slots))).to_be_deleted ∧
        n ∉ (LockFreeStack.run more
          (LockFreeStack.run ops (LockFreeStack.StackState.init Nat num_slots))).nodes_to_reclaim)) ∧
    ((refcount.rc_run rc_ops (refcount.RcState.init Nat)).freed.Nodup ∧
      (n ∈ (refcount.rc_run rc_ops (refcount.RcState.init Nat)).freed →
        n ∈ (refcount.rc_run rc_more
          (refcount.rc_run rc_ops (refcount.RcState.init Nat))).freed ∧
        n ∉ (refcount.rc_run rc_more
          (refcount.rc_run rc_ops (refcount.RcState.init Nat))).stack.map Prod.fst)) := by
  have hinv := LockFreeStack.inv_run ops _ (LockFreeStack.inv_init Nat num_slots)
  have hinv2 := LockFreeStack.inv_run more _ hinv
  refine ⟨⟨LockFreeStack.inv_freed_nodup hinv, fun hn => ?_⟩, ?_⟩
  · have hmem := LockFreeStack.freed_run_mono more _ hn
    have hdisj := LockFreeStack.inv_freed_not_live hinv2 hmem
    exact ⟨hmem, hdisj.1, hdisj.2.1, hdisj.2.2⟩
  · have hrcinv := refcount.rc_inv_run rc_ops _ (refcount.rc_inv_init Nat)
    have hrcinv2 := refcount.rc_inv_run rc_more _ hrcinv
    refine ⟨(refcount.rc_inv_freed hrcinv).1, fun hn => ?_⟩
    have hmem := refcount.rc_freed_run_mono rc_more _ hn
    exact ⟨hmem, (refcount.rc_inv_freed hrcinv2).2 n hmem⟩

/-- Witness for C4 at concrete runs: node 0 is freed by the first pop, stays
freed after a later push in both the raw-pointer and the split-count
machines, and sits on no deferred list. -/
theorem C4_witness :
    ((0 : LockFreeStack.NodeId) ∈
      (LockFreeStack.run [LockFreeStack.Op.push 6]
        (LockFreeStack.run [LockFreeStack.Op.push 5, LockFreeStack.Op.pop 0]
          (LockFreeStack.StackState.init Nat 1))).freed ∧
     (0 : LockFreeStack.NodeId) ∉
      (LockFreeStack.run [LockFreeStack.Op.push 6]
        (LockFreeStack.run [LockFreeStack.Op.push 5, LockFreeStack.Op.pop 0]
          (LockFreeStack.StackState.init Nat 1))).to_be_deleted) ∧
    (0 : LockFreeStack.NodeId) ∈
      (refcount.rc_run [refcount.RcOp.push 9]
        (refcount.rc_run [refcount.RcOp.push 7, refcount.RcOp.pop]
          (refcount.RcState.init Nat))).freed := by
  have h := (C4_node_freed_at_most_once 1
    [LockFreeStack.Op.push 5, LockFreeStack.Op.pop 0] [LockFreeStack.Op.push 6]
    [refcount.RcOp.push 7, refcount.RcOp.pop] [refcount.RcOp.push 9] 0).1.2
    (by decide)
  have h2 := (C4_node_freed_at_most_once 1
    [LockFreeStack.Op.push 5, LockFreeStack.Op.pop 0] [LockFreeStack.Op.push 6]
    [refcount.RcOp.push 7, refcount.RcOp.pop] [refcount.RcOp.push 9] 0).2.2
    (by decide)
  exact ⟨⟨h.1, h.2.2.1⟩, h2.1⟩

/-- C10: the winning pop swaps the payload out of the unlinked node before
the node is handed to reclamation: the returned handle holds exactly the
node's payload, the node's slot is left empty, and along every run each node
sitting on a deferred-reclamation list has an empty payload slot — in the
counter-based, hazard-pointer and split-count variants alike. -/
theorem C10_payload_sole_ownership (num_slots : Nat)
    (ops : List (LockFreeStack.Op Nat)) (s : LockFreeStack.StackState Nat)
    (rs : refcount.RcState Nat) (mid i : Nat) (h : LockFreeStack.NodeId)
    (e : Int) (t : List LockFreeStack.NodeId)
    (rt : List (LockFreeStack.NodeId × Int)) :
    (∀ m : LockFreeStack.NodeId,
      m ∈ (LockFreeStack.run ops (LockFreeStack.StackState.init Nat num_slots)).to_be_deleted ∨
        m ∈ (LockFreeStack.run ops (LockFreeStack.StackState.init Nat num_slots)).nodes_to_reclaim →
      (LockFreeStack.run ops (LockFreeStack.StackState.init Nat num_slots)).payload m = none) ∧
    (s.stack = h :: t →
      (LockFreeStack.pop mid s).1 = s.payload h ∧
      ((LockFreeStack.pop mid s).2).payload h = none) ∧
    (s.stack = h :: t →
      (LockFreeStack.pop_using_hazard_pointers i s).1 = s.payload h ∧
      ((LockFreeStack.pop_using_hazard_pointers i s).2).payload h = none) ∧
    (rs.stack = (h, e) :: rt →
      (refcount.pop rs).1 = rs.payload h ∧
      ((refcount.pop rs).2).payload h = none) := by
  refine ⟨?_, ?_, ?_, ?_⟩
  · exact (LockFreeStack.inv_run ops _ (LockFreeStack.inv_init Nat num_slots)).2.2
  · intro hst
    obtain ⟨r, hr⟩ := LockFreeStack.try_reclaim_some_isSome h (s.threads_in_pop + 1)
      (s.threads_in_pop + 1 + mid) s.to_be_deleted
    constructor <;> simp [LockFreeStack.pop, hst, hr]
  · intro hst
    cases hout : LockFreeStack.outstanding_hazard_pointers_for h
        (s.hazard_pointers.set i none) <;>
      refine ⟨?_, ?_⟩ <;>
      simp [LockFreeStack.pop_using_hazard_pointers, hst, hout,
        LockFreeStack.delete_nodes_with_no_hazards_eq]
  · intro hst
    refine ⟨?_, ?_⟩ <;>
      simp only [refcount.pop, hst, refcount.winner_reclaim] <;>
      split <;> simp

/-- Witness for C10 at concrete inputs: popping the singleton stacks returns
the stored payload and leaves the node's slot empty, and the deferred lists
of a concrete run hold only empty-payload nodes. -/
theorem C10_witness :
    (LockFreeStack.pop 0 (LockFreeStack.push 5
        (LockFreeStack.StackState.init Nat 1))).1 =
      (LockFreeStack.push 5 (LockFreeStack.StackState.init Nat 1)).payload 0 ∧
    ((refcount.pop (refcount.push 7 (refcount.RcState.init Nat))).2).payload 0 =
      none := by
  have h := C10_payload_sole_ownership 1 []
    (LockFreeStack.push 5 (LockFreeStack.StackState.init Nat 1))
    (refcount.push 7 (refcount.RcState.init Nat)) 0 0 0 1 [] []
  exact ⟨(h.2.1 rfl).1, (h.2.2.2 rfl).2⟩
